import Mathlib

/-!
Verification of the batched online-backfill subsystem of the
`risky_migrations` repository (projects `proj04_safe_backfill` and
`proj07_safe_backfill`), against its natural-language specification.

The central artifact is the migration
`proj04_safe_backfill/demoapp/migrations/0003_backfill_created_at_new.py`:
a small-table in-memory backfill followed by a raw-SQL batched backfill of
`large_record.created_at_new` that loops
`UPDATE ... WHERE id IN (SELECT id ... WHERE created_at_new IS NULL LIMIT batch_size)`
until the statement reports zero affected rows.  Tables are embedded as
lists of rows; one SQL batch statement becomes one pure function on the
table; the `while True` loop becomes a fuel-indexed recursion whose fuel
`countNull t + 1` is proved sufficient (each mutating batch strictly
decreases the number of NULL rows).
-/

namespace RiskyMigrations

/-- Result of `datetime.strptime(s, '%Y-%m-%d %H:%M:%S')`: year, month, day,
hour, minute, second. -/
structure DT where
  year : Nat
  month : Nat
  day : Nat
  hour : Nat
  minute : Nat
  second : Nat
  deriving DecidableEq

/-- Numeric value of a decimal digit character, `none` for non-digits. -/
def digitVal (c : Char) : Option Nat :=
  if c.isDigit then some (c.toNat - 48) else none

/-- Two-digit decimal field of a date string. -/
def parse2 (a b : Char) : Option Nat := do
  let x ← digitVal a
  let y ← digitVal b
  pure (10 * x + y)

/-- Four-digit decimal year field of a date string. -/
def parse4 (a b c d : Char) : Option Nat := do
  let x ← parse2 a b
  let y ← parse2 c d
  pure (100 * x + y)

/-- Model of the library call `datetime.strptime(s, '%Y-%m-%d %H:%M:%S')`
used by `backfill_created_at_new` for the small table, on the zero-padded
fixed-width strings this repository stores (the seed command writes
`YYYY-MM-DD HH:MM:SS` strings).  `none` models the `ValueError` raised on a
string that does not match the format. -/
def strptimeYmdHMS (s : String) : Option DT :=
  match s.toList with
  | [y1, y2, y3, y4, c1, m1, m2, c2, d1, d2, c3, h1, h2, c4, n1, n2, c5, s1, s2] =>
    if c1 = '-' ∧ c2 = '-' ∧ c3 = ' ' ∧ c4 = ':' ∧ c5 = ':' then do
      let y ← parse4 y1 y2 y3 y4
      let mo ← parse2 m1 m2
      let d ← parse2 d1 d2
      let h ← parse2 h1 h2
      let mi ← parse2 n1 n2
      let se ← parse2 s1 s2
      if 1 ≤ mo ∧ mo ≤ 12 ∧ 1 ≤ d ∧ d ≤ 31 ∧ h ≤ 23 ∧ mi ≤ 59 ∧ se ≤ 59 then
        some ⟨y, mo, d, h, mi, se⟩
      else none
    else none
  | _ => none

/-- Row of the `large_record` table: primary key `id`, a `name`, the legacy
`created_at` CharField (a date stored as a string) and the new nullable
`created_at_new` DateTimeField added by migration 0002. -/
structure LargeRow where
  id : Nat
  name : String
  created_at : String
  created_at_new : Option DT
  deriving DecidableEq

/-- Row of the `small_record` table, same shape as `LargeRow`. -/
structure SmallRow where
  id : Nat
  name : String
  created_at : String
  created_at_new : Option DT
  deriving DecidableEq

/-- The predicate `created_at_new IS NULL` of the batch subquery. -/
def isNull (r : LargeRow) : Bool := r.created_at_new.isNone

/-- Number of rows still satisfying `created_at_new IS NULL`. -/
def countNull (t : List LargeRow) : Nat := t.countP isNull

/-- The subquery `SELECT id FROM large_record WHERE created_at_new IS NULL
LIMIT batch_size`.  `LIMIT` without `ORDER BY` is modelled as taking the
first `bs` matching rows in table order. -/
def selectIds (t : List LargeRow) (bs : Nat) : List Nat :=
  ((t.filter isNull).take bs).map LargeRow.id

/-- Effect of `SET created_at_new = created_at::timestamp` on one row.
The PostgreSQL cast is abstracted as a conversion function `conv`; a cast
failure would abort the whole UPDATE statement, which the fallible runs
below model separately. -/
def setConv (conv : String → DT) (r : LargeRow) : LargeRow :=
  { r with created_at_new := some (conv r.created_at) }

/-- Effect of `UPDATE large_record SET created_at_new = created_at::timestamp
WHERE id IN ids` on the table. -/
def updateIds (conv : String → DT) (ids : List Nat) (t : List LargeRow) : List LargeRow :=
  t.map fun r => if r.id ∈ ids then setConv conv r else r

/-- One execution of the batch UPDATE statement of
`backfill_created_at_new`: new table state and `cursor.rowcount`. -/
def sqlBatchUpdate (conv : String → DT) (bs : Nat) (t : List LargeRow) :
    List LargeRow × Nat :=
  (updateIds conv (selectIds t bs) t,
    t.countP fun r => decide (r.id ∈ selectIds t bs))

/-- Fuel-indexed unfolding of the `while True` loop of
`backfill_created_at_new`: run the batch UPDATE, break when it reports zero
affected rows, otherwise record the per-batch count and continue.  Returns
the final table and the list of per-batch affected counts. -/
def backfillGo (conv : String → DT) (bs : Nat) :
    Nat → List LargeRow → List LargeRow × List Nat
  | 0, t => (t, [])
  | fuel + 1, t =>
    let s := sqlBatchUpdate conv bs t
    if s.2 = 0 then (t, [])
    else
      let r := backfillGo conv bs fuel s.1
      (r.1, s.2 :: r.2)

/-- The batched LargeRecord backfill loop of `backfill_created_at_new`.
Fuel `countNull t + 1` is sufficient because every batch that affects a row
strictly decreases `countNull` (proved below), so the result is exactly the
source loop's. -/
def backfillBatches (conv : String → DT) (bs : Nat) (t : List LargeRow) :
    List LargeRow × List Nat :=
  backfillGo conv bs (countNull t + 1) t

/-- The same loop stopped after at most `k` batches: the table state at a
crash point that killed the process after `k` committed batches. -/
def backfillFirstK (conv : String → DT) (bs : Nat) :
    Nat → List LargeRow → List LargeRow
  | 0, t => t
  | k + 1, t =>
    let s := sqlBatchUpdate conv bs t
    if s.2 = 0 then t else backfillFirstK conv bs k s.1

/-- Filling a single row if and only if it is still NULL: the effect the
whole backfill has on each row. -/
def fillRow (conv : String → DT) (r : LargeRow) : LargeRow :=
  if isNull r then setConv conv r else r

/-- The fully backfilled table: every NULL row converted, every non-NULL
row untouched. -/
def fillAll (conv : String → DT) (t : List LargeRow) : List LargeRow :=
  t.map (fillRow conv)

/-- The table's primary keys are distinct (a database invariant of the
serial `id` column). -/
abbrev idsNodup (t : List LargeRow) : Prop := (t.map LargeRow.id).Nodup

/-- Cumulative `total_backfilled` value printed after each batch: the
running sums of the per-batch affected counts. -/
def totalsAfterEachBatch (l : List Nat) : List Nat :=
  (List.scanl (fun a b => a + b) 0 l).tail

/-- The in-memory SmallRecord conversion loop of `backfill_created_at_new`:
convert every row's `created_at` with `strptime`; `none` models the
`ValueError` that aborts the loop before `bulk_update` runs. -/
def convertSmall : List SmallRow → Option (List SmallRow)
  | [] => some []
  | r :: rs =>
    match strptimeYmdHMS r.created_at, convertSmall rs with
    | some d, some rs2 => some ({ r with created_at_new := some d } :: rs2)
    | _, _ => none

/-- The SmallRecord part of `backfill_created_at_new`: on success the one
`bulk_update` persists every converted row; on a `strptime` failure the
exception propagates before `bulk_update`, so the persisted table (carried
by `Except.error`) is unchanged. -/
def smallBackfill (t : List SmallRow) : Except (List SmallRow) (List SmallRow) :=
  match convertSmall t with
  | some t2 => Except.ok t2
  | none => Except.error t

/-- Conversion applied by the small-table loop to one row. -/
def fillSmall (r : SmallRow) : SmallRow :=
  { r with created_at_new := strptimeYmdHMS r.created_at }

/-- State of the demo database: both tables touched by migration 0003. -/
structure DBState where
  small : List SmallRow
  large : List LargeRow
  deriving DecidableEq

deriving instance DecidableEq for Except

/-- Effect of `SmallRecord.objects.update(created_at_new=None)` on a row. -/
def clearSmall (r : SmallRow) : SmallRow := { r with created_at_new := none }

/-- Effect of `LargeRecord.objects.update(created_at_new=None)` on a row. -/
def clearLarge (r : LargeRow) : LargeRow := { r with created_at_new := none }

/-- The `reverse_backfill` function of migration 0003: set
`created_at_new = None` on every row of both tables. -/
def reverse_backfill (s : DBState) : DBState :=
  ⟨s.small.map clearSmall, s.large.map clearLarge⟩

/-- The forward `backfill_created_at_new` RunPython action: first the
SmallRecord conversion plus `bulk_update` (whose `strptime` may raise, in
which case nothing later runs and the persisted state is carried by
`Except.error`), then the batched LargeRecord loop. -/
def forwardMigration (conv : String → DT) (bs : Nat) (s : DBState) :
    Except DBState DBState :=
  match convertSmall s.small with
  | none => Except.error s
  | some sm => Except.ok ⟨sm, (backfillBatches conv bs s.large).1⟩

/-- The batch loop with a failure injected at batch index `failAt`
(1-based), under per-batch-commit semantics: each executed batch commits on
its own, so on failure the persisted table (carried by `Except.error`) is
the state left by the batches before `failAt`.  This is the transaction
model the specification prescribes for the Chunked Mutator. -/
def runPerBatch (conv : String → DT) (bs : Nat) (failAt : Nat) :
    Nat → Nat → List LargeRow → Except (List LargeRow) (List LargeRow)
  | 0, _, t => Except.ok t
  | fuel + 1, i, t =>
    if i = failAt then Except.error t
    else
      let s := sqlBatchUpdate conv bs t
      if s.2 = 0 then Except.ok t
      else runPerBatch conv bs failAt fuel (i + 1) s.1

/-- The source migration as Django actually executes it: the `Migration`
class in `0003_backfill_created_at_new.py` does not set `atomic = False`
(contrast `proj03_safe_backfill`'s `0002_add_email_index_concurrently.py`,
which does), so `Migration.atomic` keeps its default `True` and Django
wraps the entire RunPython action — all batches — in one transaction.  A
batch that raises therefore rolls back every previously executed batch:
the persisted state on error is the initial table. -/
def runAtomicMigration (conv : String → DT) (bs : Nat) (failAt : Nat)
    (fuel : Nat) (t : List LargeRow) : Except (List LargeRow) (List LargeRow) :=
  match runPerBatch conv bs failAt fuel 1 t with
  | Except.ok t2 => Except.ok t2
  | Except.error _ => Except.error t

/-- Modelled from the spec: outcome of running one migration step (the
repository has no execution-engine code; the spec's section 4.4 state
machine and section 7 error kinds are modelled here).  `failedStuckProgress`
is the spec's `StuckProgressError`, `failedMutation` its `MutationError`,
`fuelExhausted` is unreachable for sufficient fuel. -/
inductive StepOutcome
  | completed
  | failedStuckProgress
  | failedMutation
  | fuelExhausted
  deriving DecidableEq

/-- Modelled from the spec: the scan-step batching loop of section 4.4
(the repository has no engine code).  `next_batch` is the Batch Cursor,
`mutApply` the Chunked Mutator (`none` models `MutationError`; a raised
batch is not committed, so the state handed on is the one before the
failing batch).  The third result component counts mutator invocations. -/
def scanStepLoop {σ : Type} (next_batch : σ → List Nat)
    (mutApply : σ → List Nat → Option (σ × Nat)) :
    Nat → σ → Nat → σ × StepOutcome × Nat
  | 0, s, n => (s, StepOutcome.fuelExhausted, n)
  | fuel + 1, s, n =>
    let batch := next_batch s
    if batch.isEmpty then (s, StepOutcome.completed, n)
    else
      match mutApply s batch with
      | none => (s, StepOutcome.failedMutation, n + 1)
      | some (s2, affected) =>
        if affected = 0 then (s2, StepOutcome.failedStuckProgress, n + 1)
        else scanStepLoop next_batch mutApply fuel s2 (n + 1)

/-- Modelled from the spec: a scan step as a plan step, running the batch
loop from a given state. -/
def stepOfScan {σ : Type} (next_batch : σ → List Nat)
    (mutApply : σ → List Nat → Option (σ × Nat)) (fuel : Nat) (s : σ) :
    σ × StepOutcome :=
  let r := scanStepLoop next_batch mutApply fuel s 0
  (r.1, r.2.1)

/-- Modelled from the spec: the `PlanResult` record of section 6 — final
state, the names of the steps that completed, and the failed step if any. -/
structure PlanResult (σ : Type) where
  state : σ
  completed_steps : List String
  failed_step : Option String
  deriving DecidableEq

/-- Modelled from the spec: the Execution Engine's `apply(plan)` of section
4.5 (the repository has no engine code).  Steps run strictly in order; on
the first step that does not complete, the engine stops immediately,
reports it, and invokes no reverse action. -/
def applyPlan {σ : Type} : List (String × (σ → σ × StepOutcome)) → σ → PlanResult σ
  | [], s => ⟨s, [], none⟩
  | (nm, f) :: rest, s =>
    match f s with
    | (s2, StepOutcome.completed) =>
      let r := applyPlan rest s2
      ⟨r.state, nm :: r.completed_steps, r.failed_step⟩
    | (s2, _) => ⟨s2, [], some nm⟩

/-- Zero-padded two-digit decimal rendering, the `:02d` format of the seed
command's f-string. -/
def pad2 (n : Nat) : String :=
  if n < 10 then "0" ++ Nat.repr n else Nat.repr n

/-- One seeded SmallRecord of `seed_large_table.py`. -/
def mkSmallSeed (i : Nat) : SmallRow :=
  ⟨i, "SmallRecord_" ++ Nat.repr i, "2024-01-01 10:00:00", none⟩

/-- One seeded LargeRecord of `seed_large_table.py`; `id` models the serial
primary key assigned in creation order. -/
def mkLargeSeed (i : Nat) : LargeRow :=
  ⟨i, "LargeRecord_" ++ Nat.repr i,
    "2024-01-" ++ pad2 (i % 28 + 1) ++ " 10:00:00", none⟩

/-- The ten SmallRecord rows `Command.handle` bulk-creates
(`for i in range(1, 11)`). -/
def smallSeedRows : List SmallRow := (List.range' 1 10 1).map mkSmallSeed

/-- Fuel-indexed unfolding of `for batch_start in range(0, large_count,
batch_size)` in `Command.handle`: each iteration bulk-creates the rows
`batch_start+1 .. min(batch_start+batch_size, large_count)`.  Fuel
`large_count + 1` is sufficient for any positive batch size. -/
def seedLoop (lc bs : Nat) : Nat → Nat → List (List LargeRow)
  | 0, _ => []
  | fuel + 1, batch_start =>
    if batch_start < lc then
      (List.range' (batch_start + 1) (min (batch_start + bs) lc - batch_start) 1).map
          mkLargeSeed
        :: seedLoop lc bs fuel (batch_start + bs)
    else []

/-- The list of LargeRecord bulk-create batches of `Command.handle`. -/
def seedLargeBatches (lc bs : Nat) : List (List LargeRow) :=
  seedLoop lc bs (lc + 1) 0

/-- `Command.handle` of `seed_large_table.py`: delete every SmallRecord and
insert ten fresh ones, delete every LargeRecord and insert `lc` fresh ones
in batches of at most `bs`.  The prior database contents are deleted before
either insert, so the argument `prior` does not reach the result. -/
def handleSeed (prior : DBState) (lc bs : Nat) : DBState :=
  let afterDelete : DBState := ⟨[], prior.large⟩
  let afterSmall : DBState := ⟨smallSeedRows, afterDelete.large⟩
  let afterLargeDelete : DBState := ⟨afterSmall.small, []⟩
  ⟨afterLargeDelete.small, (seedLargeBatches lc bs).flatten⟩

/-! Basic facts about one batch UPDATE statement. -/

theorem mem_of_mem_selectIds {t : List LargeRow} {bs : Nat} {a : Nat}
    (h : a ∈ selectIds t bs) : ∃ r ∈ t, isNull r = true ∧ r.id = a := by
  unfold selectIds at h
  rcases List.mem_map.mp h with ⟨r, hr, rfl⟩
  have hr2 : r ∈ t.filter isNull := List.take_subset _ _ hr
  rcases List.mem_filter.mp hr2 with ⟨hrt, hrn⟩
  exact ⟨r, hrt, hrn, rfl⟩

theorem selectIds_length (t : List LargeRow) (bs : Nat) :
    (selectIds t bs).length = min bs (countNull t) := by
  unfold selectIds countNull
  rw [List.length_map, List.length_take, List.countP_eq_length_filter]

theorem selectIds_eq_nil {t : List LargeRow} {bs : Nat} :
    selectIds t bs = [] ↔ bs = 0 ∨ countNull t = 0 := by
  rw [← List.length_eq_zero, selectIds_length, Nat.min_eq_zero_iff]

theorem rowcount_eq_zero_iff (conv : String → DT) (bs : Nat) (t : List LargeRow) :
    (sqlBatchUpdate conv bs t).2 = 0 ↔ selectIds t bs = [] := by
  constructor
  · intro h
    cases hne : selectIds t bs with
    | nil => rfl
    | cons a ids2 =>
      exfalso
      have ha : a ∈ selectIds t bs := by rw [hne]; exact List.mem_cons_self a ids2
      rcases mem_of_mem_selectIds ha with ⟨r, hrt, _, hrid⟩
      have h0 := List.countP_eq_zero.mp h r hrt
      rw [hrid] at h0
      simp [ha] at h0
  · intro h
    show t.countP (fun r => decide (r.id ∈ selectIds t bs)) = 0
    rw [h]
    simp

theorem countP_map_le {α : Type} (q : α → Bool) (g : α → α) (t : List α)
    (hle : ∀ r, q (g r) = true → q r = true) :
    (t.map g).countP q ≤ t.countP q := by
  induction t with
  | nil => simp
  | cons a t ih =>
    simp only [List.map_cons, List.countP_cons]
    have hif : (if q (g a) then 1 else 0) ≤ (if q a then 1 else 0) := by
      cases hga : q (g a) with
      | false => simp
      | true => simp [hle a hga]
    omega

theorem countP_map_lt {α : Type} (q : α → Bool) (g : α → α) (t : List α)
    (hle : ∀ r, q (g r) = true → q r = true) (r0 : α) (h0 : r0 ∈ t)
    (hq : q r0 = true) (hg : q (g r0) = false) :
    (t.map g).countP q < t.countP q := by
  induction t with
  | nil => cases h0
  | cons a t ih =>
    simp only [List.map_cons, List.countP_cons]
    rcases List.mem_cons.mp h0 with rfl | h0t
    · have hle2 := countP_map_le q g t hle
      rw [if_neg (by simp [hg]), if_pos hq]
      omega
    · have hlt := ih h0t
      have hif : (if q (g a) then 1 else 0) ≤ (if q a then 1 else 0) := by
        cases hga : q (g a) with
        | false => simp
        | true => simp [hle a hga]
      omega

theorem countNull_batch_lt (conv : String → DT) (bs : Nat) (t : List LargeRow)
    (h : (sqlBatchUpdate conv bs t).2 ≠ 0) :
    countNull (sqlBatchUpdate conv bs t).1 < countNull t := by
  have hids : selectIds t bs ≠ [] :=
    fun hnil => h ((rowcount_eq_zero_iff conv bs t).mpr hnil)
  obtain ⟨a, ids2, hne⟩ : ∃ a ids2, selectIds t bs = a :: ids2 := by
    cases hx : selectIds t bs with
    | nil => exact absurd hx hids
    | cons a ids2 => exact ⟨a, ids2, rfl⟩
  have ha : a ∈ selectIds t bs := by rw [hne]; exact List.mem_cons_self a ids2
  rcases mem_of_mem_selectIds ha with ⟨r0, hr0t, hr0n, hr0id⟩
  show countNull (updateIds conv (selectIds t bs) t) < countNull t
  unfold countNull updateIds
  refine countP_map_lt isNull
      (fun r => if r.id ∈ selectIds t bs then setConv conv r else r) t
      ?_ r0 hr0t hr0n ?_
  · intro r hr
    dsimp only at hr
    by_cases hm : r.id ∈ selectIds t bs
    · rw [if_pos hm] at hr
      simp [isNull, setConv] at hr
    · rwa [if_neg hm] at hr
  · dsimp only
    rw [if_pos (by rw [hr0id]; exact ha)]
    simp [isNull, setConv]

theorem map_id_updateIds (conv : String → DT) (ids : List Nat) (t : List LargeRow) :
    (updateIds conv ids t).map LargeRow.id = t.map LargeRow.id := by
  unfold updateIds
  rw [List.map_map]
  apply List.map_congr_left
  intro r _
  by_cases hm : r.id ∈ ids <;> simp [Function.comp, hm, setConv]

theorem idsNodup_batch {conv : String → DT} {bs : Nat} {t : List LargeRow}
    (hn : idsNodup t) : idsNodup (sqlBatchUpdate conv bs t).1 := by
  show ((updateIds conv (selectIds t bs) t).map LargeRow.id).Nodup
  rw [map_id_updateIds]
  exact hn

theorem length_batch (conv : String → DT) (bs : Nat) (t : List LargeRow) :
    (sqlBatchUpdate conv bs t).1.length = t.length := by
  show (updateIds conv (selectIds t bs) t).length = t.length
  unfold updateIds
  exact List.length_map _ _

theorem mem_selectIds_isNull {t : List LargeRow} {bs : Nat} (hn : idsNodup t)
    {r : LargeRow} (hr : r ∈ t) (hid : r.id ∈ selectIds t bs) : isNull r = true := by
  rcases mem_of_mem_selectIds hid with ⟨r2, hr2t, hr2n, hr2id⟩
  have heq : r2 = r := List.inj_on_of_nodup_map hn hr2t hr hr2id
  rwa [← heq]

theorem fillAll_batch (conv : String → DT) (bs : Nat) (t : List LargeRow)
    (hn : idsNodup t) :
    fillAll conv (sqlBatchUpdate conv bs t).1 = fillAll conv t := by
  show fillAll conv (updateIds conv (selectIds t bs) t) = fillAll conv t
  unfold fillAll updateIds
  rw [List.map_map]
  apply List.map_congr_left
  intro r hr
  by_cases hm : r.id ∈ selectIds t bs
  · have hnull := mem_selectIds_isNull hn hr hm
    have h2 : r.created_at_new = none := by
      simpa [isNull] using hnull
    simp [Function.comp, if_pos hm, fillRow, setConv, isNull, h2]
  · simp [Function.comp, if_neg hm]

/-! Counting under the primary-key invariant. -/

theorem filter_mem_of_sublist {α : Type} [DecidableEq α] {sub L : List α}
    (h : List.Sublist sub L) :
    L.Nodup → L.filter (fun a => decide (a ∈ sub)) = sub := by
  induction h with
  | slnil => intro _; rfl
  | @cons l₁ l₂ a hsub ih =>
    intro hn
    have hna : a ∉ l₂ := (List.nodup_cons.mp hn).1
    have hasub : a ∉ l₁ := fun hmem => hna (hsub.subset hmem)
    rw [List.filter_cons, if_neg (by simp [hasub]), ih (List.nodup_cons.mp hn).2]
  | @cons₂ l₁ l₂ a hsub ih =>
    intro hn
    have hna : a ∉ l₂ := (List.nodup_cons.mp hn).1
    rw [List.filter_cons, if_pos (by simp)]
    have hcongr : ∀ x ∈ l₂,
        (decide (x ∈ a :: l₁)) = (decide (x ∈ l₁)) := by
      intro x hx
      have hxa : x ≠ a := fun he => hna (he ▸ hx)
      simp [List.mem_cons, hxa]
    rw [List.filter_congr hcongr, ih (List.nodup_cons.mp hn).2]

theorem selectIds_sublist (t : List LargeRow) (bs : Nat) :
    List.Sublist (selectIds t bs) (t.map LargeRow.id) :=
  List.Sublist.map LargeRow.id
    ((List.take_sublist _ _).trans (List.filter_sublist _))

theorem rowcount_eq (conv : String → DT) (bs : Nat) (t : List LargeRow)
    (hn : idsNodup t) : (sqlBatchUpdate conv bs t).2 = min bs (countNull t) := by
  show t.countP (fun r => decide (r.id ∈ selectIds t bs)) = _
  have h1 : t.countP (fun r => decide (r.id ∈ selectIds t bs))
      = (t.map LargeRow.id).countP (fun a => decide (a ∈ selectIds t bs)) := by
    rw [List.countP_map]
    rfl
  rw [h1, List.countP_eq_length_filter,
    filter_mem_of_sublist (selectIds_sublist t bs) hn, selectIds_length]

theorem countP_split {α : Type} (p q : α → Bool) (l : List α) :
    l.countP p
      = l.countP (fun a => p a && q a) + l.countP (fun a => p a && !q a) := by
  induction l with
  | nil => simp
  | cons a l ih =>
    simp only [List.countP_cons]
    cases hp : p a <;> cases hq : q a <;> simp [hp, hq] <;> omega

theorem countNull_batch_eq (conv : String → DT) (bs : Nat) (t : List LargeRow)
    (hn : idsNodup t) :
    countNull (sqlBatchUpdate conv bs t).1 = countNull t - min bs (countNull t) := by
  have hsplit := countP_split isNull (fun r => decide (r.id ∈ selectIds t bs)) t
  have hA : t.countP (fun r => isNull r && decide (r.id ∈ selectIds t bs))
      = t.countP (fun r => decide (r.id ∈ selectIds t bs)) := by
    apply List.countP_congr
    intro r hr
    simp only [Bool.and_eq_true]
    constructor
    · rintro ⟨_, h2⟩; exact h2
    · intro h2
      exact ⟨mem_selectIds_isNull hn hr (of_decide_eq_true h2), h2⟩
  have hB : countNull (sqlBatchUpdate conv bs t).1
      = t.countP (fun r => isNull r && !decide (r.id ∈ selectIds t bs)) := by
    show countNull (updateIds conv (selectIds t bs) t) = _
    unfold countNull updateIds
    rw [List.countP_map]
    apply List.countP_congr
    intro r hr
    by_cases hm : r.id ∈ selectIds t bs
    · simp [Function.comp, hm, setConv, isNull]
    · simp [Function.comp, hm]
  have hrc2 : t.countP (fun r => decide (r.id ∈ selectIds t bs))
      = min bs (countNull t) := rowcount_eq conv bs t hn
  rw [hB]
  unfold countNull at hsplit hrc2 ⊢
  omega

/-! The batch loop: fuel sufficiency and its final state. -/

theorem fillAll_of_no_null (conv : String → DT) (t : List LargeRow)
    (h : countNull t = 0) : fillAll conv t = t := by
  have hall := List.countP_eq_zero.mp h
  unfold fillAll
  have hpt : ∀ r ∈ t, fillRow conv r = id r := by
    intro r hr
    unfold fillRow
    rw [if_neg (by simpa using hall r hr)]
    rfl
  rw [List.map_congr_left hpt, List.map_id]

theorem rowcount_zero_of_no_null (conv : String → DT) (bs : Nat)
    (t : List LargeRow) (h : countNull t = 0) :
    (sqlBatchUpdate conv bs t).2 = 0 :=
  (rowcount_eq_zero_iff conv bs t).mpr (selectIds_eq_nil.mpr (Or.inr h))

theorem backfillGo_step (conv : String → DT) (bs fuel : Nat) (t : List LargeRow)
    (h0 : (sqlBatchUpdate conv bs t).2 ≠ 0) :
    backfillGo conv bs (fuel + 1) t
      = ((backfillGo conv bs fuel (sqlBatchUpdate conv bs t).1).1,
         (sqlBatchUpdate conv bs t).2
           :: (backfillGo conv bs fuel (sqlBatchUpdate conv bs t).1).2) := by
  simp only [backfillGo]
  rw [if_neg h0]

theorem backfillGo_stop (conv : String → DT) (bs fuel : Nat) (t : List LargeRow)
    (h0 : (sqlBatchUpdate conv bs t).2 = 0) :
    backfillGo conv bs (fuel + 1) t = (t, []) := by
  simp only [backfillGo]
  rw [if_pos h0]

theorem backfillGo_final (conv : String → DT) (bs : Nat) :
    ∀ (fuel : Nat) (t : List LargeRow), countNull t < fuel → idsNodup t →
      0 < bs → (backfillGo conv bs fuel t).1 = fillAll conv t := by
  intro fuel
  induction fuel with
  | zero => intro t h _ _; omega
  | succ fuel ih =>
    intro t hf hn hbs
    by_cases h0 : (sqlBatchUpdate conv bs t).2 = 0
    · rw [backfillGo_stop conv bs fuel t h0]
      have hc0 : countNull t = 0 := by
        rcases selectIds_eq_nil.mp ((rowcount_eq_zero_iff conv bs t).mp h0) with h | h
        · omega
        · exact h
      exact (fillAll_of_no_null conv t hc0).symm
    · rw [backfillGo_step conv bs fuel t h0]
      have hlt := countNull_batch_lt conv bs t h0
      have := ih (sqlBatchUpdate conv bs t).1 (by omega) (idsNodup_batch hn) hbs
      rw [this, fillAll_batch conv bs t hn]

theorem backfillGo_no_null (conv : String → DT) (bs : Nat) :
    ∀ (fuel : Nat) (t : List LargeRow), countNull t < fuel → 0 < bs →
      countNull (backfillGo conv bs fuel t).1 = 0 := by
  intro fuel
  induction fuel with
  | zero => intro t h _; omega
  | succ fuel ih =>
    intro t hf hbs
    by_cases h0 : (sqlBatchUpdate conv bs t).2 = 0
    · rw [backfillGo_stop conv bs fuel t h0]
      rcases selectIds_eq_nil.mp ((rowcount_eq_zero_iff conv bs t).mp h0) with h | h
      · omega
      · exact h
    · rw [backfillGo_step conv bs fuel t h0]
      have hlt := countNull_batch_lt conv bs t h0
      exact ih (sqlBatchUpdate conv bs t).1 (by omega) hbs

theorem backfillGo_batches_le (conv : String → DT) (bs : Nat) :
    ∀ (fuel : Nat) (t : List LargeRow), countNull t < fuel →
      (backfillGo conv bs fuel t).2.length ≤ countNull t := by
  intro fuel
  induction fuel with
  | zero => intro t h; omega
  | succ fuel ih =>
    intro t hf
    by_cases h0 : (sqlBatchUpdate conv bs t).2 = 0
    · rw [backfillGo_stop conv bs fuel t h0]
      simp
    · rw [backfillGo_step conv bs fuel t h0]
      have hlt := countNull_batch_lt conv bs t h0
      have := ih (sqlBatchUpdate conv bs t).1 (by omega)
      simp only [List.length_cons]
      omega

theorem backfillFirstK_inv (conv : String → DT) (bs : Nat) :
    ∀ (k : Nat) (t : List LargeRow), idsNodup t →
      fillAll conv (backfillFirstK conv bs k t) = fillAll conv t ∧
        idsNodup (backfillFirstK conv bs k t) := by
  intro k
  induction k with
  | zero => intro t hn; exact ⟨rfl, hn⟩
  | succ k ih =>
    intro t hn
    simp only [backfillFirstK]
    by_cases h0 : (sqlBatchUpdate conv bs t).2 = 0
    · rw [if_pos h0]; exact ⟨rfl, hn⟩
    · rw [if_neg h0]
      obtain ⟨h1, h2⟩ := ih (sqlBatchUpdate conv bs t).1 (idsNodup_batch hn)
      exact ⟨h1.trans (fillAll_batch conv bs t hn), h2⟩

theorem backfillBatches_final (conv : String → DT) (bs : Nat)
    (t : List LargeRow) (hn : idsNodup t) (hbs : 0 < bs) :
    (backfillBatches conv bs t).1 = fillAll conv t :=
  backfillGo_final conv bs (countNull t + 1) t (by omega) hn hbs

/-! Step lemmas describing one batch of the loop by its row counts. -/

theorem go_batch_cons (conv : String → DT) (bs fuel : Nat) (t : List LargeRow)
    (hn : idsNodup t) (h0 : countNull t ≠ 0) (hbs : 0 < bs) :
    (backfillGo conv bs (fuel + 1) t).2
      = min bs (countNull t)
          :: (backfillGo conv bs fuel (sqlBatchUpdate conv bs t).1).2 := by
  have h1ne : (sqlBatchUpdate conv bs t).2 ≠ 0 := by
    rw [rowcount_eq conv bs t hn]
    omega
  rw [backfillGo_step conv bs fuel t h1ne]
  dsimp only
  rw [rowcount_eq conv bs t hn]

theorem go_batch_nil (conv : String → DT) (bs fuel : Nat) (t : List LargeRow)
    (h0 : countNull t = 0) :
    (backfillGo conv bs (fuel + 1) t).2 = [] := by
  rw [backfillGo_stop conv bs fuel t (rowcount_zero_of_no_null conv bs t h0)]

theorem scanl_head (f : Nat → Nat → Nat) (b : Nat) (l : List Nat) :
    (List.scanl f b l).head? = some b := by
  cases l <;> rfl

theorem chain_le_scanl (l : List Nat) :
    ∀ init : Nat,
      List.Chain' (fun a b => a ≤ b) (List.scanl (fun a b => a + b) init l) := by
  induction l with
  | nil => intro init; simp
  | cons a l ih =>
    intro init
    rw [List.scanl_cons, List.singleton_append, List.chain'_cons']
    refine ⟨?_, ih (init + a)⟩
    intro y hy
    rw [scanl_head] at hy
    rw [Option.mem_def, Option.some.injEq] at hy
    omega

/-! Concrete fixtures used by the closed witnesses. -/

/-- Conversion fixture standing in for the PostgreSQL cast in closed
witnesses. -/
def convZero : String → DT := fun _ => ⟨0, 0, 0, 0, 0, 0⟩

/-- A 25-row all-NULL LargeRecord table, as the seed command would create
it. -/
def t25c : List LargeRow := (List.range' 1 25 1).map mkLargeSeed

/-! Claim theorems for the batched LargeRecord backfill loop. -/

/-- C1: idempotent resume of the batched backfill — for every table with
distinct primary keys and every crash point (stop after `k` batches),
re-running the backfill loop from scratch yields the same final table, so
in particular the same row count and the same `created_at_new` column
values, as running it uninterrupted; and each batch's UPDATE selects only
rows where `created_at_new IS NULL`, so already-migrated rows are never
re-selected. -/
theorem backfill_idempotent_resume (conv : String → DT) (bs k : Nat)
    (t : List LargeRow) (hn : idsNodup t) (hbs : 0 < bs) :
    (backfillBatches conv bs (backfillFirstK conv bs k t)).1
        = (backfillBatches conv bs t).1
      ∧ (backfillBatches conv bs (backfillFirstK conv bs k t)).1.length
        = (backfillBatches conv bs t).1.length
      ∧ (backfillBatches conv bs (backfillFirstK conv bs k t)).1.map
            LargeRow.created_at_new
        = (backfillBatches conv bs t).1.map LargeRow.created_at_new
      ∧ ∀ r ∈ backfillFirstK conv bs k t, isNull r = false →
          r.id ∉ selectIds (backfillFirstK conv bs k t) bs := by
  obtain ⟨hfa, hnod⟩ := backfillFirstK_inv conv bs k t hn
  have h1 : (backfillBatches conv bs (backfillFirstK conv bs k t)).1
      = (backfillBatches conv bs t).1 := by
    rw [backfillBatches_final conv bs _ hnod hbs,
      backfillBatches_final conv bs t hn hbs, hfa]
  refine ⟨h1, by rw [h1], by rw [h1], ?_⟩
  intro r hr hnul hmem
  have hcontra := mem_selectIds_isNull hnod hr hmem
  rw [hnul] at hcontra
  exact Bool.noConfusion hcontra

/-- Closed witness for `backfill_idempotent_resume` at a concrete 25-row
table, batch size 10, crash after one batch. -/
theorem backfill_idempotent_resume_witness :
    (backfillBatches convZero 10 (backfillFirstK convZero 10 1 t25c)).1
        = (backfillBatches convZero 10 t25c).1
      ∧ (backfillBatches convZero 10 (backfillFirstK convZero 10 1 t25c)).1.length
        = (backfillBatches convZero 10 t25c).1.length
      ∧ (backfillBatches convZero 10 (backfillFirstK convZero 10 1 t25c)).1.map
            LargeRow.created_at_new
        = (backfillBatches convZero 10 t25c).1.map LargeRow.created_at_new :=
  ⟨(backfill_idempotent_resume convZero 10 1 t25c (by decide) (by decide)).1,
    (backfill_idempotent_resume convZero 10 1 t25c (by decide) (by decide)).2.1,
    (backfill_idempotent_resume convZero 10 1 t25c (by decide) (by decide)).2.2.1⟩

/-- C2: the batched-backfill scenario — starting from any table of 25 rows,
all with `created_at_new` NULL and distinct ids, with batch size 10, the
loop performs exactly the mutating batches `[10, 10, 5]`, the cumulative
`total_backfilled` takes the values `[10, 20, 25]`, the next batch UPDATE
affects 0 rows, and the loop terminates with no NULL row left. -/
theorem backfill_scenario_25 (conv : String → DT) (t : List LargeRow)
    (hn : idsNodup t) (hlen : t.length = 25)
    (hnull : ∀ r ∈ t, r.created_at_new = none) :
    (backfillBatches conv 10 t).2 = [10, 10, 5]
      ∧ totalsAfterEachBatch (backfillBatches conv 10 t).2 = [10, 20, 25]
      ∧ (sqlBatchUpdate conv 10 (backfillBatches conv 10 t).1).2 = 0
      ∧ countNull (backfillBatches conv 10 t).1 = 0 := by
  have hc : countNull t = 25 := by
    have hall : t.countP isNull = t.length :=
      List.countP_eq_length.mpr fun r hr => by simp [isNull, hnull r hr]
    unfold countNull
    omega
  have hn1 : idsNodup (sqlBatchUpdate conv 10 t).1 := idsNodup_batch hn
  have hn2 : idsNodup (sqlBatchUpdate conv 10 (sqlBatchUpdate conv 10 t).1).1 :=
    idsNodup_batch hn1
  have hc1 : countNull (sqlBatchUpdate conv 10 t).1 = 15 := by
    rw [countNull_batch_eq conv 10 t hn, hc]
    omega
  have hc2 : countNull (sqlBatchUpdate conv 10 (sqlBatchUpdate conv 10 t).1).1
      = 5 := by
    rw [countNull_batch_eq conv 10 _ hn1, hc1]
    omega
  have hc3 : countNull (sqlBatchUpdate conv 10
      (sqlBatchUpdate conv 10 (sqlBatchUpdate conv 10 t).1).1).1 = 0 := by
    rw [countNull_batch_eq conv 10 _ hn2, hc2]
    omega
  have hbatches : (backfillBatches conv 10 t).2 = [10, 10, 5] := by
    show (backfillGo conv 10 (countNull t + 1) t).2 = _
    rw [show countNull t + 1 = 23 + 1 + 1 + 1 by omega]
    rw [go_batch_cons conv 10 (23 + 1 + 1) t hn (by omega) (by omega)]
    rw [go_batch_cons conv 10 (23 + 1) _ hn1 (by omega) (by omega)]
    rw [go_batch_cons conv 10 23 _ hn2 (by omega) (by omega)]
    rw [show (23 : Nat) = 22 + 1 by rfl]
    rw [go_batch_nil conv 10 22 _ hc3]
    rw [hc, hc1, hc2]
    decide
  have hfin : countNull (backfillBatches conv 10 t).1 = 0 :=
    backfillGo_no_null conv 10 (countNull t + 1) t (by omega) (by omega)
  refine ⟨hbatches, ?_, rowcount_zero_of_no_null conv 10 _ hfin, hfin⟩
  rw [hbatches]
  decide

/-- Closed witness for `backfill_scenario_25` at the concrete seeded 25-row
table. -/
theorem backfill_scenario_25_witness :
    (backfillBatches convZero 10 t25c).2 = [10, 10, 5]
      ∧ totalsAfterEachBatch (backfillBatches convZero 10 t25c).2 = [10, 20, 25]
      ∧ (sqlBatchUpdate convZero 10 (backfillBatches convZero 10 t25c).1).2 = 0
      ∧ countNull (backfillBatches convZero 10 t25c).1 = 0 :=
  backfill_scenario_25 convZero t25c (by decide) (by decide) (by decide)

/-- C5: batch-size invariance — running the scan step with batch size `b1`,
stopping after `k` batches, then re-running it to exhaustion with batch
size `b2`, produces exactly the same final table as running the step to
exhaustion with one constant batch size `b`; and when every row starts
NULL, every row of that final table carries the converted `created_at`. -/
theorem batch_size_invariance (conv : String → DT) (b1 b2 b k : Nat)
    (t : List LargeRow) (hn : idsNodup t) (_h1 : 0 < b1) (h2 : 0 < b2)
    (hb : 0 < b) :
    (backfillBatches conv b2 (backfillFirstK conv b1 k t)).1
        = (backfillBatches conv b t).1
      ∧ ((∀ r ∈ t, r.created_at_new = none) →
          ∀ r ∈ (backfillBatches conv b2 (backfillFirstK conv b1 k t)).1,
            r.created_at_new = some (conv r.created_at)) := by
  obtain ⟨hfa, hnod⟩ := backfillFirstK_inv conv b1 k t hn
  have hmain : (backfillBatches conv b2 (backfillFirstK conv b1 k t)).1
      = fillAll conv t := by
    rw [backfillBatches_final conv b2 _ hnod h2, hfa]
  constructor
  · rw [hmain, backfillBatches_final conv b t hn hb]
  · intro hall r hr
    rw [hmain] at hr
    unfold fillAll at hr
    rcases List.mem_map.mp hr with ⟨r0, hr0, rfl⟩
    unfold fillRow
    rw [if_pos (by simp [isNull, hall r0 hr0])]
    simp [setConv]

/-- Closed witness for `batch_size_invariance`: batch sizes 10 then 7
versus a constant 9, crash after one batch. -/
theorem batch_size_invariance_witness :
    (backfillBatches convZero 7 (backfillFirstK convZero 10 1 t25c)).1
      = (backfillBatches convZero 9 t25c).1 :=
  (batch_size_invariance convZero 10 7 9 1 t25c (by decide) (by decide)
    (by decide) (by decide)).1

/-- C6: monotonic progress and termination — within one scan step the
cumulative `total_backfilled` values are non-decreasing from batch to
batch, the loop executes at most `countNull t` mutating batches (finitely
many for a finite table), and the loop's final state is a fixed point: the
next batch UPDATE affects zero rows. -/
theorem backfill_monotone_terminates (conv : String → DT) (bs : Nat)
    (t : List LargeRow) (hbs : 0 < bs) :
    List.Chain' (fun a b => a ≤ b)
        (totalsAfterEachBatch (backfillBatches conv bs t).2)
      ∧ (backfillBatches conv bs t).2.length ≤ countNull t
      ∧ (sqlBatchUpdate conv bs (backfillBatches conv bs t).1).2 = 0 := by
  refine ⟨?_, ?_, ?_⟩
  · exact (chain_le_scanl (backfillBatches conv bs t).2 0).tail
  · exact backfillGo_batches_le conv bs (countNull t + 1) t (by omega)
  · exact rowcount_zero_of_no_null conv bs _
      (backfillGo_no_null conv bs (countNull t + 1) t (by omega) hbs)

/-- Closed witness for `backfill_monotone_terminates` at the concrete
25-row table with batch size 10. -/
theorem backfill_monotone_terminates_witness :
    List.Chain' (fun a b => a ≤ b)
        (totalsAfterEachBatch (backfillBatches convZero 10 t25c).2)
      ∧ (backfillBatches convZero 10 t25c).2.length ≤ countNull t25c
      ∧ (sqlBatchUpdate convZero 10 (backfillBatches convZero 10 t25c).1).2 = 0 :=
  backfill_monotone_terminates convZero 10 t25c (by decide)

/-! The SmallRecord conversion loop. -/

theorem convertSmall_none_iff (t : List SmallRow) :
    convertSmall t = none ↔ ∃ r ∈ t, strptimeYmdHMS r.created_at = none := by
  induction t with
  | nil => simp [convertSmall]
  | cons r rs ih =>
    constructor
    · intro h
      cases hp : strptimeYmdHMS r.created_at with
      | none => exact ⟨r, List.mem_cons_self r rs, hp⟩
      | some d =>
        cases hcs : convertSmall rs with
        | none =>
          rcases ih.mp hcs with ⟨r2, hr2, hp2⟩
          exact ⟨r2, List.mem_cons_of_mem r hr2, hp2⟩
        | some rs2 =>
          rw [convertSmall, hp, hcs] at h
          cases h
    · rintro ⟨r2, hr2, hp2⟩
      rcases List.mem_cons.mp hr2 with rfl | hr2t
      · rw [convertSmall, hp2]
      · cases hp : strptimeYmdHMS r.created_at with
        | none => rw [convertSmall, hp]
        | some d =>
          rw [convertSmall, hp, ih.mpr ⟨r2, hr2t, hp2⟩]

theorem convertSmall_some (t : List SmallRow)
    (h : ∀ r ∈ t, strptimeYmdHMS r.created_at ≠ none) :
    convertSmall t = some (t.map fillSmall) := by
  induction t with
  | nil => rfl
  | cons r rs ih =>
    have hr := h r (List.mem_cons_self r rs)
    cases hp : strptimeYmdHMS r.created_at with
    | none => exact absurd hp hr
    | some d =>
      rw [List.map_cons, convertSmall, hp,
        ih fun x hx => h x (List.mem_cons_of_mem r hx)]
      simp [fillSmall, hp]

/-- C9: the small-table backfill is all-or-nothing — it converts every
SmallRecord's `created_at` with the fixed strptime format and writes all
rows back in one `bulk_update`; if any single row's string does not match
the format, the conversion raises before `bulk_update` and the persisted
small table is unchanged; if every row matches, every row is written back
converted. -/
theorem small_backfill_all_or_nothing (t : List SmallRow) :
    ((∃ r ∈ t, strptimeYmdHMS r.created_at = none) →
        smallBackfill t = Except.error t)
      ∧ ((∀ r ∈ t, strptimeYmdHMS r.created_at ≠ none) →
          smallBackfill t = Except.ok (t.map fillSmall)) := by
  constructor
  · intro h
    unfold smallBackfill
    rw [(convertSmall_none_iff t).mpr h]
  · intro h
    unfold smallBackfill
    rw [convertSmall_some t h]

/-- A small table whose second row's `created_at` does not match the
strptime format. -/
def smallBadRows : List SmallRow :=
  [⟨1, "SmallRecord_1", "2024-01-01 10:00:00", none⟩,
   ⟨2, "SmallRecord_2", "not-a-date", none⟩]

/-- Closed witness for `small_backfill_all_or_nothing`: a malformed row
aborts the whole small-table backfill unchanged, while the seeded rows all
convert in one write. -/
theorem small_backfill_all_or_nothing_witness :
    smallBackfill smallBadRows = Except.error smallBadRows
      ∧ smallBackfill smallSeedRows
        = Except.ok (smallSeedRows.map fillSmall) :=
  ⟨(small_backfill_all_or_nothing smallBadRows).1 (by decide),
    (small_backfill_all_or_nothing smallSeedRows).2 (by decide)⟩

/-! Reverse action and the forward round trip. -/

theorem clearSmall_of_null {r : SmallRow} (h : r.created_at_new = none) :
    clearSmall r = r := by
  cases r with
  | mk i n c cn =>
    cases h
    rfl

theorem clearLarge_of_null {r : LargeRow} (h : r.created_at_new = none) :
    clearLarge r = r := by
  cases r with
  | mk i n c cn =>
    cases h
    rfl

theorem reverse_of_all_null {s : DBState}
    (hsm : ∀ r ∈ s.small, r.created_at_new = none)
    (hlg : ∀ r ∈ s.large, r.created_at_new = none) :
    reverse_backfill s = s := by
  unfold reverse_backfill
  have h1 : s.small.map clearSmall = s.small := by
    have hpt : ∀ r ∈ s.small, clearSmall r = id r :=
      fun r hr => clearSmall_of_null (hsm r hr)
    rw [List.map_congr_left hpt, List.map_id]
  have h2 : s.large.map clearLarge = s.large := by
    have hpt : ∀ r ∈ s.large, clearLarge r = id r :=
      fun r hr => clearLarge_of_null (hlg r hr)
    rw [List.map_congr_left hpt, List.map_id]
  rw [h1, h2]

theorem clearSmall_created_at (z : SmallRow) :
    (clearSmall z).created_at = z.created_at := rfl

theorem fillRow_clearLarge (conv : String → DT) (x : LargeRow) :
    fillRow conv (clearLarge x)
      = ⟨x.id, x.name, x.created_at, some (conv x.created_at)⟩ := rfl

theorem fillAll_clear_fillAll (conv : String → DT) (t : List LargeRow)
    (hlg : ∀ r ∈ t, r.created_at_new = none) :
    fillAll conv ((fillAll conv t).map clearLarge) = fillAll conv t := by
  unfold fillAll
  rw [List.map_map, List.map_map]
  apply List.map_congr_left
  intro r hr
  have h := hlg r hr
  simp only [Function.comp]
  rw [fillRow_clearLarge]
  unfold fillRow
  rw [if_pos (by simp [isNull, h])]
  rfl

theorem map_id_fillAll (conv : String → DT) (t : List LargeRow) :
    (fillAll conv t).map LargeRow.id = t.map LargeRow.id := by
  unfold fillAll
  rw [List.map_map]
  apply List.map_congr_left
  intro r _
  by_cases h : isNull r = true <;> simp [Function.comp, fillRow, h, setConv]

theorem map_id_clearLarge (t : List LargeRow) :
    (t.map clearLarge).map LargeRow.id = t.map LargeRow.id := by
  rw [List.map_map]
  exact List.map_congr_left fun r _ => rfl

/-- A database state whose single large row carries a stale non-NULL
`created_at_new` differing from its converted `created_at`. -/
def staleState : DBState :=
  ⟨[], [⟨1, "LargeRecord_1", "2024-01-01 10:00:00", some ⟨1, 1, 1, 0, 0, 0⟩⟩]⟩

/-- C7 counterexample: forward-after-reverse does not equal forward on
every original table.  On a table whose row already has a non-NULL
`created_at_new` different from its converted `created_at`, the forward
backfill keeps the stale value, while reverse (clear to NULL) followed by
forward overwrites it with the converted value. -/
theorem reverse_roundtrip_counterexample :
    ¬ (forwardMigration convZero 10 (reverse_backfill staleState)
        = forwardMigration convZero 10 staleState) := by
  decide

/-- C7 amended: for states in which every row's `created_at_new` starts
NULL — the state in which migration 0003 actually runs, right after 0002
adds the columns — the reverse action is exact: forward after reverse
equals forward, and reverting a completed forward application and
re-applying the forward backfill reproduces exactly the completed state. -/
theorem reverse_roundtrip_amended (conv : String → DT) (bs : Nat) (s : DBState)
    (hbs : 0 < bs) (hn : idsNodup s.large)
    (hsm : ∀ r ∈ s.small, r.created_at_new = none)
    (hlg : ∀ r ∈ s.large, r.created_at_new = none) :
    forwardMigration conv bs (reverse_backfill s) = forwardMigration conv bs s
      ∧ ∀ s2, forwardMigration conv bs s = Except.ok s2 →
          forwardMigration conv bs (reverse_backfill s2) = Except.ok s2 := by
  constructor
  · rw [reverse_of_all_null hsm hlg]
  · intro s2 h
    cases hcs : convertSmall s.small with
    | none =>
      rw [forwardMigration, hcs] at h
      cases h
    | some sm =>
      rw [forwardMigration, hcs] at h
      have hs2 : s2 = ⟨sm, (backfillBatches conv bs s.large).1⟩ :=
        (Except.ok.inj h).symm
      have hparse : ∀ r ∈ s.small, strptimeYmdHMS r.created_at ≠ none := by
        intro r hr hnone
        have hcn : convertSmall s.small = none :=
          (convertSmall_none_iff s.small).mpr ⟨r, hr, hnone⟩
        rw [hcn] at hcs
        cases hcs
      have hsm_eq : sm = s.small.map fillSmall := by
        have hcv := convertSmall_some s.small hparse
        rw [hcv] at hcs
        exact (Option.some.inj hcs).symm
      subst hs2
      have hparse2 : ∀ r ∈ sm.map clearSmall,
          strptimeYmdHMS r.created_at ≠ none := by
        intro r hr
        rcases List.mem_map.mp hr with ⟨y, hy, rfl⟩
        rw [hsm_eq] at hy
        rcases List.mem_map.mp hy with ⟨x, hx, rfl⟩
        rw [clearSmall_created_at]
        show strptimeYmdHMS (fillSmall x).created_at ≠ none
        exact hparse x hx
      have hsmall2 : convertSmall (sm.map clearSmall) = some sm := by
        rw [convertSmall_some _ hparse2, List.map_map, hsm_eq, List.map_map]
        congr 1
      have hnL : idsNodup ((backfillBatches conv bs s.large).1.map clearLarge) := by
        show (((backfillBatches conv bs s.large).1.map clearLarge).map
            LargeRow.id).Nodup
        rw [map_id_clearLarge, backfillBatches_final conv bs s.large hn hbs,
          map_id_fillAll]
        exact hn
      have hlarge2 : (backfillBatches conv bs
          ((backfillBatches conv bs s.large).1.map clearLarge)).1
          = (backfillBatches conv bs s.large).1 := by
        rw [backfillBatches_final _ _ _ hnL hbs,
          backfillBatches_final conv bs s.large hn hbs]
        exact fillAll_clear_fillAll conv s.large hlg
      show forwardMigration conv bs
          ⟨sm.map clearSmall, (backfillBatches conv bs s.large).1.map clearLarge⟩
        = Except.ok ⟨sm, (backfillBatches conv bs s.large).1⟩
      rw [forwardMigration, hsmall2, hlarge2]

/-- The state migration 0003 starts from: seeded rows, all
`created_at_new` NULL. -/
def cleanState : DBState := ⟨smallSeedRows, t25c⟩

/-- The completed forward state of `cleanState`. -/
def okState : DBState :=
  ⟨smallSeedRows.map fillSmall, fillAll convZero t25c⟩

/-- Closed witness for `reverse_roundtrip_amended` at the seeded state. -/
theorem reverse_roundtrip_amended_witness :
    forwardMigration convZero 10 (reverse_backfill cleanState)
        = forwardMigration convZero 10 cleanState
      ∧ forwardMigration convZero 10 (reverse_backfill okState)
        = Except.ok okState :=
  ⟨(reverse_roundtrip_amended convZero 10 cleanState (by decide) (by decide)
      (by decide) (by decide)).1,
    (reverse_roundtrip_amended convZero 10 cleanState (by decide) (by decide)
      (by decide) (by decide)).2 okState (by decide)⟩

/-! Transaction structure of the source migration (C4). -/

/-- C4 evaluation: the migration as the source executes it (no
`atomic = False` on the `Migration` class, hence one transaction around all
batches) rolls back the already-executed batch 1 when batch 2 fails — the
persisted table is the initial one with all 25 rows still NULL — whereas
the per-batch-commit semantics prescribed by the spec would leave the 10
rows of batch 1 committed (15 NULL rows) and resumable. -/
theorem atomic_migration_rolls_back_prior_batches :
    runAtomicMigration convZero 10 2 26 t25c = Except.error t25c
      ∧ countNull t25c = 25
      ∧ runPerBatch convZero 10 2 26 1 t25c
        = Except.error (backfillFirstK convZero 10 1 t25c)
      ∧ countNull (backfillFirstK convZero 10 1 t25c) = 15 := by
  refine ⟨by decide, by decide, by decide, by decide⟩

/-! The spec's engine: stuck-progress guard and halt-on-first-failure. -/

/-- C3: stuck-progress detection — for a pathological cursor/mutator
pairing where the cursor returns a non-empty batch but the mutation
affects zero rows, the scan-step loop stops with `failedStuckProgress`
(the spec's `StuckProgressError`) after exactly one mutator invocation,
for every fuel bound, instead of looping or completing. -/
theorem stuck_progress_within_one_batch {σ : Type}
    (next_batch : σ → List Nat) (mutApply : σ → List Nat → Option (σ × Nat))
    (s s2 : σ) (fuel n : Nat)
    (hb : next_batch s ≠ [])
    (hm : mutApply s (next_batch s) = some (s2, 0)) :
    scanStepLoop next_batch mutApply (fuel + 1) s n
      = (s2, StepOutcome.failedStuckProgress, n + 1) := by
  simp only [scanStepLoop]
  rw [if_neg (by simp [List.isEmpty_iff, hb]), hm]
  rfl

/-- Modelled from the spec: a Batch Cursor whose predicate keeps matching
rows (pathological pairing fixture). -/
def stuckCursor : Nat → List Nat := fun _ => [1]

/-- Modelled from the spec: a Chunked Mutator that affects zero rows
(pathological pairing fixture). -/
def stuckMutator : Nat → List Nat → Option (Nat × Nat) := fun s _ => some (s, 0)

/-- Closed witness for `stuck_progress_within_one_batch`. -/
theorem stuck_progress_within_one_batch_witness :
    scanStepLoop stuckCursor stuckMutator 5 0 0
      = (0, StepOutcome.failedStuckProgress, 1) :=
  stuck_progress_within_one_batch stuckCursor stuckMutator 0 0 4 0
    (by decide) (by decide)

/-- C8: halt on first failure with no auto-rollback — when the mutation of
batch 2 of a scan step fails after batch 1 committed, the step loop stops
with `failedMutation` in the state left by batch 1 after exactly two
mutator invocations (batch 3 is never attempted), and the engine stops at
that step: it reports no completed steps and the failed step's name, runs
none of the later plan steps, and leaves the state exactly as batch 1 left
it (no reverse action is invoked). -/
theorem engine_halts_on_first_failure {σ : Type}
    (next_batch : σ → List Nat) (mutApply : σ → List Nat → Option (σ × Nat))
    (s s1 : σ) (a1 fuel : Nat) (nm : String)
    (rest : List (String × (σ → σ × StepOutcome)))
    (hb1 : next_batch s ≠ [])
    (hm1 : mutApply s (next_batch s) = some (s1, a1)) (ha1 : a1 ≠ 0)
    (hb2 : next_batch s1 ≠ [])
    (hm2 : mutApply s1 (next_batch s1) = none) :
    scanStepLoop next_batch mutApply (fuel + 1 + 1) s 0
      = (s1, StepOutcome.failedMutation, 2)
      ∧ applyPlan ((nm, stepOfScan next_batch mutApply (fuel + 1 + 1)) :: rest) s
        = ⟨s1, [], some nm⟩ := by
  have hloop : scanStepLoop next_batch mutApply (fuel + 1 + 1) s 0
      = (s1, StepOutcome.failedMutation, 2) := by
    simp only [scanStepLoop]
    rw [if_neg (by simp [List.isEmpty_iff, hb1]), hm1]
    dsimp only
    rw [if_neg ha1, if_neg (by simp [List.isEmpty_iff, hb2]), hm2]
  have hstepof : stepOfScan next_batch mutApply (fuel + 1 + 1) s
      = (s1, StepOutcome.failedMutation) := by
    simp only [stepOfScan, hloop]
  refine ⟨hloop, ?_⟩
  simp only [applyPlan, hstepof]

/-- Modelled from the spec: cursor fixture for the halting scenario. -/
def demoCursor : Nat → List Nat := fun _ => [5]

/-- Modelled from the spec: mutator fixture that commits batch 1 (moving
the state from 0 to 1, 10 rows) and raises `MutationError` on batch 2. -/
def demoMutator : Nat → List Nat → Option (Nat × Nat) :=
  fun s _ => if s = 0 then some (1, 10) else none

/-- Modelled from the spec: a later plan step that must never run. -/
def demoLater : List (String × (Nat → Nat × StepOutcome)) :=
  [("later_step", fun s => (s + 100, StepOutcome.completed))]

/-- Closed witness for `engine_halts_on_first_failure`. -/
theorem engine_halts_on_first_failure_witness :
    scanStepLoop demoCursor demoMutator 4 0 0
        = (1, StepOutcome.failedMutation, 2)
      ∧ applyPlan
          (("backfill_step", stepOfScan demoCursor demoMutator 4) :: demoLater) 0
        = ⟨1, [], some "backfill_step"⟩ :=
  engine_halts_on_first_failure demoCursor demoMutator 0 1 10 2 "backfill_step"
    demoLater (by decide) (by decide) (by decide) (by decide) (by decide)

/-! The seed command (C10). -/

theorem seedLoop_flatten_length (lc bs : Nat) (hbs : 0 < bs) :
    ∀ (fuel batch_start : Nat), lc ≤ batch_start + fuel * bs →
      ((seedLoop lc bs fuel batch_start).flatten).length = lc - batch_start := by
  intro fuel
  induction fuel with
  | zero =>
    intro start h
    simp only [seedLoop, List.flatten_nil, List.length_nil]
    omega
  | succ fuel ih =>
    intro start h
    rw [Nat.succ_mul] at h
    by_cases hlt : start < lc
    · simp only [seedLoop, if_pos hlt, List.flatten_cons, List.length_append,
        List.length_map, List.length_range']
      rw [ih (start + bs) (by omega)]
      omega
    · simp only [seedLoop, if_neg hlt, List.flatten_nil, List.length_nil]
      omega

theorem seedLoop_length (lc bs : Nat) (hbs : 0 < bs) :
    ∀ (fuel batch_start : Nat), lc ≤ batch_start + fuel * bs →
      (seedLoop lc bs fuel batch_start).length
        = (lc - batch_start + bs - 1) / bs := by
  intro fuel
  induction fuel with
  | zero =>
    intro start h
    simp only [seedLoop, List.length_nil]
    have h0 : lc - start = 0 := by omega
    rw [h0]
    exact (Nat.div_eq_of_lt (by omega)).symm
  | succ fuel ih =>
    intro start h
    rw [Nat.succ_mul] at h
    by_cases hlt : start < lc
    · simp only [seedLoop, if_pos hlt, List.length_cons]
      rw [ih (start + bs) (by omega)]
      rcases Nat.le_total bs (lc - start) with hbt | hbt
      · have e1 : lc - (start + bs) + bs - 1 = lc - start - 1 := by omega
        have e2 : lc - start + bs - 1 = (lc - start - 1) + bs := by omega
        rw [e1, e2, Nat.add_div_right _ hbs]
      · have e1 : lc - (start + bs) = 0 := by omega
        have e2 : lc - start + bs - 1 = (lc - start - 1) + bs := by omega
        rw [e1, e2, Nat.add_div_right _ hbs,
          Nat.div_eq_of_lt (by omega), Nat.div_eq_of_lt (by omega)]
    · simp only [seedLoop, if_neg hlt, List.length_nil]
      have h0 : lc - start = 0 := by omega
      rw [h0]
      exact (Nat.div_eq_of_lt (by omega)).symm

theorem seedLoop_batch_le (lc bs : Nat) :
    ∀ (fuel batch_start : Nat), ∀ b ∈ seedLoop lc bs fuel batch_start,
      b.length ≤ bs := by
  intro fuel
  induction fuel with
  | zero =>
    intro start b hb
    simp [seedLoop] at hb
  | succ fuel ih =>
    intro start b hb
    by_cases hlt : start < lc
    · simp only [seedLoop, if_pos hlt] at hb
      rcases List.mem_cons.mp hb with rfl | hbt
      · simp only [List.length_map, List.length_range']
        omega
      · exact ih (start + bs) b hbt
    · simp only [seedLoop, if_neg hlt] at hb
      cases hb

/-- C10: the seed command is destructive and deterministic in count — for
every `large_count` and every `batch_size > 0` it deletes all existing
rows of both tables, leaves SmallRecord with exactly 10 rows and
LargeRecord with exactly `large_count` rows, inserted in
`ceil(large_count / batch_size)` bulk-create batches of size at most
`batch_size`, and its result is independent of the prior table contents. -/
theorem seed_command_counts (prior : DBState) (lc bs : Nat) (hbs : 0 < bs) :
    (handleSeed prior lc bs).small.length = 10
      ∧ (handleSeed prior lc bs).large.length = lc
      ∧ (seedLargeBatches lc bs).length = (lc + bs - 1) / bs
      ∧ (∀ b ∈ seedLargeBatches lc bs, b.length ≤ bs)
      ∧ ∀ prior2, handleSeed prior lc bs = handleSeed prior2 lc bs := by
  have hmul : (lc + 1) * 1 ≤ (lc + 1) * bs := Nat.mul_le_mul_left (lc + 1) hbs
  have hone : (lc + 1) * 1 = lc + 1 := Nat.mul_one _
  have hfuel : lc ≤ 0 + (lc + 1) * bs := by omega
  refine ⟨rfl, ?_, ?_, ?_, fun _ => rfl⟩
  · show ((seedLargeBatches lc bs).flatten).length = lc
    have h := seedLoop_flatten_length lc bs hbs (lc + 1) 0 hfuel
    simpa using h
  · show (seedLoop lc bs (lc + 1) 0).length = _
    rw [seedLoop_length lc bs hbs (lc + 1) 0 hfuel]
    congr 1
  · intro b hb
    exact seedLoop_batch_le lc bs (lc + 1) 0 b hb

/-- A prior database state with junk rows, deleted by the seed command. -/
def priorJunk : DBState :=
  ⟨[⟨7, "junk", "junk", none⟩], [⟨9, "junk", "junk", some ⟨1, 1, 1, 0, 0, 0⟩⟩]⟩

/-- Closed witness for `seed_command_counts` at `large_count = 25`,
`batch_size = 10`, from a junk-filled prior state. -/
theorem seed_command_counts_witness :
    (handleSeed priorJunk 25 10).small.length = 10
      ∧ (handleSeed priorJunk 25 10).large.length = 25
      ∧ (seedLargeBatches 25 10).length = (25 + 10 - 1) / 10
      ∧ handleSeed priorJunk 25 10 = handleSeed ⟨[], []⟩ 25 10 :=
  ⟨(seed_command_counts priorJunk 25 10 (by decide)).1,
    (seed_command_counts priorJunk 25 10 (by decide)).2.1,
    (seed_command_counts priorJunk 25 10 (by decide)).2.2.1,
    (seed_command_counts priorJunk 25 10 (by decide)).2.2.2.2 ⟨[], []⟩⟩

end RiskyMigrations
